import Mathlib

/-!
# Verification of the PyIRCParser line decoder

This file gives a shallow embedding of `ircparser.py` and proves the
specified properties of its `parse` function.  Python strings are modelled
as Lean `String`, Python lists of strings as `List String`, Python values
that may be `None` as `Option`, and an `IndexError` escaping a function as
an `Option.none` result, propagated by `Option.bind` exactly along the
evaluation order of the Python code.
-/

/-- A Python value stored in one field of the parse result: `None`, a
string, or the `(nickname, username, hostname)` triple. -/
inductive PyVal where
  | none : PyVal
  | str : String → PyVal
  | triple : String → String → String → PyVal
deriving DecidableEq, Repr

/-- Python whitespace, the characters `str.split()` splits on. -/
def pyIsSpace (c : Char) : Bool :=
  c == ' ' || c == '\t' || c == '\n' || c == '\r' || c == '\x0b' || c == '\x0c'

/-- Split a character list at every character satisfying `p`, keeping empty
pieces, with `acc` the (reversed) characters of the piece currently being
read.  This is the common engine of Python `str.split(sep)` and
`str.split()`. -/
def splitAux (p : Char → Bool) : List Char → List Char → List String
  | [], acc => [String.mk acc.reverse]
  | c :: cs, acc =>
    if p c then String.mk acc.reverse :: splitAux p cs []
    else splitAux p cs (c :: acc)

/-- Python `s.split(sep)` for a one-character separator: splits at every
occurrence, keeps empty pieces, and returns `[s]` when `sep` is absent. -/
def pySplitChar (sep : Char) (s : String) : List String :=
  splitAux (fun c => c == sep) s.toList []

/-- Python `s.split()`: split on whitespace runs, discarding empty pieces. -/
def pySplitWs (s : String) : List String :=
  (splitAux pyIsSpace s.toList []).filter (fun w => w ≠ "")

/-- Python `sep.join(l)`. -/
def pyJoin (sep : String) : List String → String
  | [] => ""
  | [x] => x
  | x :: y :: xs => x ++ sep ++ pyJoin sep (y :: xs)

/-- Python `s.startswith(pre)`. -/
def pyStartsWith (s pre : String) : Bool :=
  pre.toList.isPrefixOf s.toList

/-- Python `c in s` for a single character `c`. -/
def pyContainsChar (s : String) (c : Char) : Bool :=
  s.toList.any (fun x => x == c)

/-- A nonempty all-ASCII-digit character list. -/
def allDigits1 (l : List Char) : Bool :=
  !l.isEmpty && l.all (fun c => c.isDigit)

/-- Python `int(c)` succeeding on `c`: an optional sign followed by at
least one digit.  (CPython also tolerates surrounding whitespace, interior
underscores and non-ASCII digits; the strings fed to this predicate come
from `str.split()` so they carry no whitespace, and the claims under
verification never depend on the exotic forms.) -/
def pyIntParsable (s : String) : Bool :=
  match s.toList with
  | '+' :: rest => allDigits1 rest
  | '-' :: rest => allDigits1 rest
  | l => allDigits1 l

/-- Python `a or b` for two `None`-or-string values: the empty string is
falsy, everything else is truthy. -/
def pyOr (a b : Option String) : Option String :=
  match a with
  | some s => if s = "" then b else some s
  | none => b

/-- Lift a `None`-or-string Python value into `PyVal`. -/
def optStr : Option String → PyVal
  | none => PyVal.none
  | some s => PyVal.str s

/-- `tokenize(s)`: split on `:`; when the split produced more than one
piece (the line contains at least one colon) return everything after the
first piece, otherwise the empty list. -/
def tokenize (s : String) : List String :=
  if (pySplitChar ':' s).length > 1 then (pySplitChar ':' s).drop 1 else []

/-- `getNickname(t)`: `t[0].split('!')[0]`.  Indexing `t[0]` may fail; the
`[0]` of a split never does. -/
def getNickname (t : List String) : Option String :=
  t.head?.map (fun s => (pySplitChar '!' s).headD "")

/-- `strippedNickname(s)`: drop one leading `@`, `!`, `&` or `~` when the
string has length greater than one. -/
def strippedNickname (s : String) : String :=
  if s.toList.length > 1 &&
      (["@", "!", "&", "~"] : List String).contains (String.mk (s.toList.take 1)) then
    String.mk (s.toList.drop 1)
  else s

/-- `getHostname(t)`: `t[0].split('!')[1].split('@')[1].split()[0]`. -/
def getHostname (t : List String) : Option String :=
  t.head?.bind fun s =>
  ((pySplitChar '!' s).get? 1).bind fun a =>
  ((pySplitChar '@' a).get? 1).bind fun b =>
  (pySplitWs b).get? 0

/-- `getUser(t)`: `t[0].split('!')[1].split('@')[0]`. -/
def getUser (t : List String) : Option String :=
  t.head?.bind fun s =>
  ((pySplitChar '!' s).get? 1).map fun a =>
  (pySplitChar '@' a).headD ""

/-- `getChannel(t)`: first whitespace word of `t[0]` starting with `#`,
else `None`.  The outer `Option` is the `t[0]` indexing failure. -/
def getChannel (t : List String) : Option (Option String) :=
  t.head?.map (fun s => (pySplitWs s).find? (fun w => pyStartsWith w "#"))

/-- `getRecipient(t)`: `t[0].split()[2]`. -/
def getRecipient (t : List String) : Option String :=
  t.head?.bind fun s => (pySplitWs s).get? 2

/-- `getServer(t)`: `t[0].split()[0]`. -/
def getServer (t : List String) : Option String :=
  t.head?.bind fun s => (pySplitWs s).get? 0

/-- `getAction(t)`: `t[0].split()[1]`. -/
def getAction (t : List String) : Option String :=
  t.head?.bind fun s => (pySplitWs s).get? 1

/-- `isServerMessage(t)`: `'!' not in t[0].split()[0]`. -/
def isServerMessage (t : List String) : Option Bool :=
  t.head?.bind fun s =>
  ((pySplitWs s).get? 0).map fun w => !pyContainsChar w '!'

/-- `getIRCCode(t)`: the second whitespace word of `t[0]` when it parses
as an integer, else `None` (the `ValueError` of `int` is caught inside). -/
def getIRCCode (t : List String) : Option (Option String) :=
  t.head?.bind fun s =>
  ((pySplitWs s).get? 1).map fun c =>
  if pyIntParsable c then some c else none

/-- `getMsg(t, code, action)`: the first-match-wins payload computation of
the source. -/
def getMsg (t : List String) (code : Option String) (action : Option String) :
    Option (Option String) :=
  if t.length > 1 then some (some (pyJoin ":" (t.drop 1)))
  else if code = some "333" then
    t.head?.map (fun s => some (pyJoin " " ((pySplitWs s).drop 4)))
  else if action = some "MODE" then
    t.head?.map (fun s => some (pyJoin " " ((pySplitWs s).drop 3)))
  else some none

/-- The `ParseOutput` class: six attributes, all initialised to `None`. -/
structure ParseOutput where
  server : PyVal
  channel : PyVal
  recipient : PyVal
  user : PyVal
  type : PyVal
  msg : PyVal
deriving DecidableEq, Repr

/-- A fresh `ParseOutput()`: every attribute `None`. -/
def emptyOutput : ParseOutput :=
  ⟨PyVal.none, PyVal.none, PyVal.none, PyVal.none, PyVal.none, PyVal.none⟩

/-- Python `setattr(parseObj, key, val)` for the six known attribute
names; other keys leave the modelled object unchanged (the source only
ever passes the six names). -/
def setAttr (o : ParseOutput) (k : String) (v : PyVal) : ParseOutput :=
  if k = "server" then { o with server := v }
  else if k = "channel" then { o with channel := v }
  else if k = "recipient" then { o with recipient := v }
  else if k = "user" then { o with user := v }
  else if k = "type" then { o with type := v }
  else if k = "msg" then { o with msg := v }
  else o

/-- `getOutputObject(d)`: fold `setattr` over the key/value pairs of the
dictionary, in insertion order, starting from a fresh `ParseOutput()`. -/
def getOutputObject (d : List (String × PyVal)) : ParseOutput :=
  d.foldl (fun o kv => setAttr o kv.1 kv.2) emptyOutput

/-- The body of `_parse` after the `PING` test failed, producing the six
fields; every Python expression that can raise `IndexError` is an
`Option` bound in the source's evaluation order. -/
def _parseNoPing (t : List String) : Option ParseOutput :=
  (isServerMessage t).bind fun isrv =>
  (if isrv then
      (getServer t).map (fun sv => (PyVal.str sv, PyVal.none, (none : Option String)))
    else
      (getNickname t).bind fun n =>
      (getUser t).bind fun u =>
      (getHostname t).bind fun h =>
      (getAction t).map fun a =>
      (PyVal.none, PyVal.triple (strippedNickname n) u h, some a)).bind fun sua =>
  (if sua.2.2 = some "NOTICE" ∨ sua.2.2 = some "PRIVMSG" then
      (isServerMessage t).bind fun isrv2 =>
      if isrv2 then some PyVal.none else (getRecipient t).map PyVal.str
    else some PyVal.none).bind fun recipient =>
  (getIRCCode t).bind fun code =>
  (getChannel t).bind fun channel =>
  (getMsg t code sua.2.2).bind fun msg =>
  (if sua.2.2 = some "JOIN" then getMsg t code sua.2.2 else some channel).bind
    fun channel1 =>
  some { server := sua.1
         channel := optStr channel1
         recipient := recipient
         user := sua.2.1
         type := optStr (pyOr sua.2.2 code)
         msg := optStr (if sua.2.2 = some "PART" then channel else msg) }

/-- The six fields computed by `_parse(s, ...)` before the output-shape
selection, `none` when the Python body raises `IndexError`. -/
def _parseRaw (s : String) : Option ParseOutput :=
  if pyStartsWith s "PING" then
    (tokenize s).head?.map (fun m =>
      { server := PyVal.none, channel := PyVal.none, recipient := PyVal.none
        user := PyVal.none, type := PyVal.str "PING", msg := PyVal.str m })
  else
    _parseNoPing (tokenize s)

/-- The result of `_parse` in one of its four output shapes. -/
inductive ParseResult where
  | tuple : PyVal × PyVal × PyVal × PyVal × PyVal × PyVal → ParseResult
  | dict : List (String × PyVal) → ParseResult
  | list : List PyVal → ParseResult
  | obj : ParseOutput → ParseResult
deriving DecidableEq, Repr

/-- The dictionary built by `_parse`, keys in the source's order. -/
def dictOf (p : ParseOutput) : List (String × PyVal) :=
  [("server", p.server), ("channel", p.channel), ("recipient", p.recipient),
   ("user", p.user), ("type", p.type), ("msg", p.msg)]

/-- The list built by `_parse`, in the source's order. -/
def listOf (p : ParseOutput) : List PyVal :=
  [p.server, p.channel, p.recipient, p.user, p.type, p.msg]

/-- The tuple built by `_parse`, in the source's order. -/
def tupleOf (p : ParseOutput) : PyVal × PyVal × PyVal × PyVal × PyVal × PyVal :=
  (p.server, p.channel, p.recipient, p.user, p.type, p.msg)

/-- The output-shape selection at the end of `_parse`. -/
def mkViews (output : String) (p : ParseOutput) : ParseResult :=
  if output = "dict" ∨ output = "dictionary" then ParseResult.dict (dictOf p)
  else if output = "object" then ParseResult.obj (getOutputObject (dictOf p))
  else if output = "list" then ParseResult.list (listOf p)
  else ParseResult.tuple (tupleOf p)

/-- `_parse(s, output)`: the fields followed by the shape selection. -/
def _parse (s : String) (output : String) : Option ParseResult :=
  (_parseRaw s).map (mkViews output)

/-- `parse(s, output)`: run `_parse` and turn an `IndexError` into the
all-`None` result of the requested shape. -/
def parse (s : String) (output : String) : ParseResult :=
  match _parse s output with
  | some r => r
  | none =>
    if output = "dict" ∨ output = "dictionary" then ParseResult.dict (dictOf emptyOutput)
    else if output = "object" then ParseResult.obj (getOutputObject (dictOf emptyOutput))
    else if output = "list" then ParseResult.list (listOf emptyOutput)
    else ParseResult.tuple (tupleOf emptyOutput)

/-- The six decoded fields of a line: the fields of `_parse`, with the
all-absent record when the decoder falls back. -/
def decodeFields (s : String) : ParseOutput :=
  (_parseRaw s).getD emptyOutput

/-- The value of the local variable `action` of `_parse` on a non-`PING`
line: `None` for a server message, the action word otherwise; `none`
outside when computing it raises `IndexError`. -/
def lineAction (t : List String) : Option (Option String) :=
  (isServerMessage t).bind fun isrv =>
  if isrv then some none else (getAction t).map some

/-- The step-7 payload policy exactly as the specification words it:
first match wins among trailing payload, numeric `333` fixed-position
words, and `MODE` words. -/
def msgPolicySpec (t : List String) (code : Option String) (action : Option String) :
    Option String :=
  if t.length > 1 then some (pyJoin ":" (t.drop 1))
  else if code = some "333" then some (pyJoin " " ((pySplitWs (t.headD "")).drop 4))
  else if action = some "MODE" then some (pyJoin " " ((pySplitWs (t.headD "")).drop 3))
  else none

/-- Nickname sigil stripping exactly as the specification words it: strip
at most one leading character from `{@, !, &, ~}`, only when the string
has length greater than one. -/
def stripSigilSpec (s : String) : String :=
  if s.toList.length > 1 ∧ s.toList.headD ' ' ∈ (['@', '!', '&', '~'] : List Char) then
    String.mk (s.toList.drop 1)
  else s

/-- The text after the first colon of a line, `none` when the line has no
colon at all. -/
def afterFirstColon (s : String) : Option String :=
  if s.toList.any (fun c => c == ':') then
    some (String.mk ((s.toList.dropWhile (fun c => !(c == ':'))).drop 1))
  else none

/-- A string usable as the nick, user or host part of an IRC prefix:
nonempty, and free of `:`, `!`, `@` and whitespace. -/
def goodAtom (x : String) : Prop :=
  x ≠ "" ∧ ∀ c ∈ x.toList, c ≠ ':' ∧ c ≠ '!' ∧ c ≠ '@' ∧ pyIsSpace c = false

instance : DecidablePred goodAtom := fun x => by
  unfold goodAtom; infer_instance

/-- Recover the record from the list view. -/
def fieldsOfList : List PyVal → Option ParseOutput
  | [a, b, c, d, e, f] => some ⟨a, b, c, d, e, f⟩
  | _ => none

/-- Recover the record from the tuple view. -/
def fieldsOfTuple (v : PyVal × PyVal × PyVal × PyVal × PyVal × PyVal) : ParseOutput :=
  ⟨v.1, v.2.1, v.2.2.1, v.2.2.2.1, v.2.2.2.2.1, v.2.2.2.2.2⟩

/-! ## Lemmas about the splitting engine -/

theorem splitAux_cons_eq (p : Char → Bool) (d : Char) (rest acc : List Char) :
    splitAux p (d :: rest) acc =
      if p d then String.mk acc.reverse :: splitAux p rest []
      else splitAux p rest (d :: acc) := rfl

theorem splitAux_ne_nil (p : Char → Bool) (l acc : List Char) : splitAux p l acc ≠ [] := by
  induction l generalizing acc with
  | nil => simp [splitAux]
  | cons c cs ih =>
    unfold splitAux
    split
    · simp
    · exact ih _

theorem splitAux_no (p : Char → Bool) (l acc : List Char)
    (h : ∀ c ∈ l, p c = false) : splitAux p l acc = [String.mk (acc.reverse ++ l)] := by
  induction l generalizing acc with
  | nil => simp [splitAux]
  | cons c cs ih =>
    have hc : p c = false := h c (List.mem_cons_self c cs)
    unfold splitAux
    rw [hc]
    simp only [Bool.false_eq_true, if_false]
    rw [ih (c :: acc) (fun x hx => h x (List.mem_cons_of_mem c hx))]
    simp

theorem splitAux_app (p : Char → Bool) (l1 l2 acc : List Char) (c : Char)
    (h : ∀ x ∈ l1, p x = false) (hc : p c = true) :
    splitAux p (l1 ++ c :: l2) acc = String.mk (acc.reverse ++ l1) :: splitAux p l2 [] := by
  induction l1 generalizing acc with
  | nil => simp [splitAux, hc]
  | cons d ds ih =>
    have hd : p d = false := h d (List.mem_cons_self d ds)
    simp only [List.cons_append, splitAux_cons_eq, hd, Bool.false_eq_true, if_false]
    rw [ih (d :: acc) (fun x hx => h x (List.mem_cons_of_mem d hx))]
    simp

theorem splitAux_head (p : Char → Bool) (l acc : List Char) :
    (splitAux p l acc).head? =
      some (String.mk (acc.reverse ++ l.takeWhile (fun c => !p c))) := by
  induction l generalizing acc with
  | nil => simp [splitAux]
  | cons c cs ih =>
    by_cases hc : p c = true
    · simp [splitAux, hc, List.takeWhile_cons]
    · have hc' : p c = false := by simpa using hc
      simp only [splitAux, hc', Bool.false_eq_true, if_false, List.takeWhile_cons,
        Bool.not_false, if_true]
      rw [ih (c :: acc)]
      simp

theorem splitAux_pos (p : Char → Bool) (l acc : List Char) (h : l.any p = true) :
    splitAux p l acc =
      String.mk (acc.reverse ++ l.takeWhile (fun c => !p c)) ::
        splitAux p ((l.dropWhile (fun c => !p c)).drop 1) [] := by
  induction l generalizing acc with
  | nil => simp at h
  | cons c cs ih =>
    by_cases hc : p c = true
    · simp [splitAux, hc, List.takeWhile_cons, List.dropWhile_cons]
    · have hc' : p c = false := by simpa using hc
      have hcs : cs.any p = true := by simpa [hc'] using h
      simp only [splitAux, hc', Bool.false_eq_true, if_false, List.takeWhile_cons,
        List.dropWhile_cons, Bool.not_false, if_true]
      rw [ih (c :: acc) hcs]
      simp

theorem splitAux_chars (p : Char → Bool) (l acc : List Char) (w : String)
    (hw : w ∈ splitAux p l acc) : ∀ c ∈ w.toList, c ∈ acc ∨ c ∈ l := by
  induction l generalizing acc with
  | nil =>
    simp only [splitAux, List.mem_singleton] at hw
    subst hw
    intro c hc
    left
    simpa using hc
  | cons d ds ih =>
    unfold splitAux at hw
    by_cases hd : p d = true
    · rw [if_pos hd] at hw
      rcases List.mem_cons.mp hw with rfl | hw'
      · intro c hc
        left
        simpa using hc
      · intro c hc
        rcases ih [] hw' c hc with h0 | h1
        · simp at h0
        · right
          exact List.mem_cons_of_mem _ h1
    · rw [if_neg hd] at hw
      intro c hc
      rcases ih (d :: acc) hw c hc with h0 | h1
      · rcases List.mem_cons.mp h0 with rfl | h2
        · right
          exact List.mem_cons_self _ _
        · left
          exact h2
      · right
        exact List.mem_cons_of_mem _ h1

theorem takeWhile_append_all (p : Char → Bool) (l1 l2 : List Char)
    (h : ∀ c ∈ l1, p c = true) :
    (l1 ++ l2).takeWhile p = l1 ++ l2.takeWhile p := by
  induction l1 with
  | nil => simp
  | cons c cs ih =>
    simp [List.takeWhile_cons, h c (List.mem_cons_self c cs),
      ih (fun x hx => h x (List.mem_cons_of_mem c hx))]

theorem dropWhile_append_all (p : Char → Bool) (l1 l2 : List Char)
    (h : ∀ c ∈ l1, p c = true) :
    (l1 ++ l2).dropWhile p = l2.dropWhile p := by
  induction l1 with
  | nil => simp
  | cons c cs ih =>
    simp [List.dropWhile_cons, h c (List.mem_cons_self c cs),
      ih (fun x hx => h x (List.mem_cons_of_mem c hx))]

theorem takeWhile_all_eq (p : Char → Bool) (l : List Char)
    (h : ∀ c ∈ l, p c = true) : l.takeWhile p = l := by
  induction l with
  | nil => simp
  | cons c cs ih =>
    simp [List.takeWhile_cons, h c (List.mem_cons_self c cs),
      ih (fun x hx => h x (List.mem_cons_of_mem c hx))]

/-! ## Lemmas about tokenize -/

theorem tokenize_no_colon (s : String) (h : s.toList.any (fun c => c == ':') = false) :
    tokenize s = [] := by
  unfold tokenize pySplitChar
  rw [splitAux_no _ _ _ (by simpa using List.any_eq_false.mp h)]
  simp

theorem tokenize_colon (s : String) (h : s.toList.any (fun c => c == ':') = true) :
    tokenize s =
      splitAux (fun c => c == ':') ((s.toList.dropWhile (fun c => !(c == ':'))).drop 1) [] := by
  unfold tokenize pySplitChar
  rw [splitAux_pos _ _ _ h]
  rw [if_pos]
  · simp
  · have hne := splitAux_ne_nil (fun c => c == ':')
      ((s.toList.dropWhile (fun c => !(c == ':'))).drop 1) []
    have hlen := List.length_pos.mpr hne
    simp only [List.length_cons, gt_iff_lt]
    omega

/-! ## Lemmas about the decoder pipeline -/

theorem parse_eq_views (s output : String) :
    parse s output = mkViews output (decodeFields s) := by
  unfold parse _parse decodeFields
  cases h : _parseRaw s with
  | some p => simp [h]
  | none => rfl

theorem parseNoPing_some {t : List String} {p : ParseOutput} (h : _parseNoPing t = some p) :
    ∃ isrv sua recipient code channel msg channel1,
      isServerMessage t = some isrv ∧
      (if isrv then
          (getServer t).map (fun sv => (PyVal.str sv, PyVal.none, (none : Option String)))
        else
          (getNickname t).bind fun n =>
          (getUser t).bind fun u =>
          (getHostname t).bind fun h2 =>
          (getAction t).map fun a =>
          (PyVal.none, PyVal.triple (strippedNickname n) u h2, some a)) = some sua ∧
      (if sua.2.2 = some "NOTICE" ∨ sua.2.2 = some "PRIVMSG" then
          (isServerMessage t).bind fun isrv2 =>
          if isrv2 then some PyVal.none else (getRecipient t).map PyVal.str
        else some PyVal.none) = some recipient ∧
      getIRCCode t = some code ∧
      getChannel t = some channel ∧
      getMsg t code sua.2.2 = some msg ∧
      (if sua.2.2 = some "JOIN" then getMsg t code sua.2.2 else some channel) = some channel1 ∧
      p = { server := sua.1
            channel := optStr channel1
            recipient := recipient
            user := sua.2.1
            type := optStr (pyOr sua.2.2 code)
            msg := optStr (if sua.2.2 = some "PART" then channel else msg) } := by
  unfold _parseNoPing at h
  simp only [Option.bind_eq_some] at h
  obtain ⟨isrv, h1, sua, h2, recipient, h3, code, h4, channel, h5, msg, h6, channel1, h7, h8⟩ := h
  exact ⟨isrv, sua, recipient, code, channel, msg, channel1, h1, h2, h3, h4, h5, h6, h7,
    (Option.some.inj h8).symm⟩

theorem getMsg_policy {t : List String} {code action : Option String} {m : Option String}
    (h : getMsg t code action = some m) : m = msgPolicySpec t code action := by
  unfold getMsg at h
  unfold msgPolicySpec
  by_cases h1 : t.length > 1
  · rw [if_pos h1] at h
    rw [if_pos h1]
    exact (Option.some.inj h).symm
  · rw [if_neg h1] at h
    rw [if_neg h1]
    by_cases h2 : code = some "333"
    · rw [if_pos h2] at h
      rw [if_pos h2]
      obtain ⟨x, hx, hm⟩ := Option.map_eq_some'.mp h
      rw [List.headD_eq_head?, hx]
      exact hm.symm
    · rw [if_neg h2] at h
      rw [if_neg h2]
      by_cases h3 : action = some "MODE"
      · rw [if_pos h3] at h
        rw [if_pos h3]
        obtain ⟨x, hx, hm⟩ := Option.map_eq_some'.mp h
        rw [List.headD_eq_head?, hx]
        exact hm.symm
      · rw [if_neg h3] at h
        rw [if_neg h3]
        exact (Option.some.inj h).symm

theorem strippedNickname_eq_spec (s : String) : strippedNickname s = stripSigilSpec s := by
  unfold strippedNickname stripSigilSpec
  rcases hl : s.toList with _ | ⟨c, rest⟩
  · simp
  · simp only [List.take_succ_cons, List.take_zero, List.drop_succ_cons, List.drop_zero,
      List.headD_cons, List.length_cons]
    by_cases hc : c ∈ (['@', '!', '&', '~'] : List Char)
    · have hc' : c = '@' ∨ c = '!' ∨ c = '&' ∨ c = '~' := by simpa using hc
      have hcon : (["@", "!", "&", "~"] : List String).contains (String.mk [c]) = true := by
        rcases hc' with rfl | rfl | rfl | rfl <;> decide
      by_cases hlen : rest.length + 1 > 1
      · rw [if_pos (by simp only [hcon, Bool.and_true, decide_eq_true_eq]; exact hlen),
          if_pos ⟨hlen, hc⟩]
      · rw [if_neg (by simp only [hcon, Bool.and_true, decide_eq_true_eq]; exact hlen),
          if_neg (fun hand => hlen hand.1)]
    · have hcon : (["@", "!", "&", "~"] : List String).contains (String.mk [c]) = false := by
        rw [Bool.eq_false_iff]
        intro hcontra
        exact hc (by simpa [String.ext_iff] using hcontra)
      rw [if_neg (by simp only [hcon, Bool.and_false]; exact Bool.false_ne_true),
        if_neg (fun hand => hc hand.2)]

theorem getOutputObject_dictOf (p : ParseOutput) : getOutputObject (dictOf p) = p := by
  simp [getOutputObject, dictOf, setAttr]

/-! ## The claims -/

/-- C1: for every input string and every output mode, `parse` returns
normally, and whenever the inner decoding fails with an out-of-bounds
indexing failure (`_parseRaw s = none`) the returned result is the view of
the record in which all six fields are absent. -/
theorem C1_parse_total_fallback (s output : String) :
    parse s output = mkViews output ((_parseRaw s).getD emptyOutput) :=
  parse_eq_views s output

/-- C2: for every input string the decode result never has both the
`server` field and the `user` field set. -/
theorem C2_server_user_exclusive (s : String) :
    (decodeFields s).server = PyVal.none ∨ (decodeFields s).user = PyVal.none := by
  unfold decodeFields _parseRaw
  by_cases hping : pyStartsWith s "PING" = true
  · rw [if_pos hping]
    cases h : (tokenize s).head? with
    | none => exact Or.inl rfl
    | some m => simp
  · rw [if_neg hping]
    cases h : _parseNoPing (tokenize s) with
    | none => exact Or.inl rfl
    | some p =>
      simp only [Option.getD_some]
      obtain ⟨isrv, sua, rcp, code, ch, m, ch1, hsrv, hsua, hrcp, hcode, hch, hm, hch1, hp⟩ :=
        parseNoPing_some h
      subst hp
      cases isrv with
      | true =>
        rw [if_pos rfl] at hsua
        obtain ⟨sv, hsv, hsua'⟩ := Option.map_eq_some'.mp hsua
        right
        rw [← hsua']
      | false =>
        rw [if_neg Bool.false_ne_true] at hsua
        simp only [Option.bind_eq_some, Option.map_eq_some'] at hsua
        obtain ⟨n, hn, u, hu, h2, hh2, a, ha, hsua'⟩ := hsua
        left
        rw [← hsua']

/-- C3, counterexample: the bare line `PING` starts with `PING`, yet its
tokenization is empty, so the decoder falls back to the all-absent result
and `type` is not `"PING"` as the claim demands. -/
theorem C3_cex_bare_ping :
    pyStartsWith "PING" "PING" = true ∧ decodeFields "PING" = emptyOutput ∧
    (decodeFields "PING").type ≠ PyVal.str "PING" := by decide

/-- C3, amended: for every input line that starts with `PING` and whose
tokenization is non-empty (the line contains a colon), decode returns
`type = "PING"`, `msg` = the first token of the colon split, and the other
four fields absent. -/
theorem C3_ping_shape (s m : String)
    (hping : pyStartsWith s "PING" = true)
    (hm : (tokenize s).head? = some m) :
    decodeFields s =
      { server := PyVal.none, channel := PyVal.none, recipient := PyVal.none
        user := PyVal.none, type := PyVal.str "PING", msg := PyVal.str m } := by
  unfold decodeFields _parseRaw
  rw [if_pos hping, hm]
  rfl

/-- C3, witness: the spec's own `PING` example decodes as the amended
claim states. -/
theorem C3_ping_shape_witness :
    decodeFields "PING :tungsten.libera.chat" =
      { server := PyVal.none, channel := PyVal.none, recipient := PyVal.none
        user := PyVal.none, type := PyVal.str "PING"
        msg := PyVal.str "tungsten.libera.chat" } :=
  C3_ping_shape _ _ (by decide) (by decide)

/-- C4, counterexample: the line `:foo 123` does not start with `PING` and
has its only colon at position 0, yet its token list is non-empty and it
decodes to a result with `server` and `type` set, contradicting the
claim. -/
theorem C4_cex_leading_colon :
    pyStartsWith ":foo 123" "PING" = false ∧
    ((":foo 123").toList.drop 1).any (fun c => c == ':') = false ∧
    tokenize ":foo 123" ≠ [] ∧
    decodeFields ":foo 123" ≠ emptyOutput := by decide

/-- C4, amended: for every line that does not start with `PING` and
contains no colon at all, the token list is empty and the decoder returns
the all-absent result. -/
theorem C4_no_colon_empty (s : String)
    (hping : pyStartsWith s "PING" = false)
    (hcolon : s.toList.any (fun c => c == ':') = false) :
    tokenize s = [] ∧ _parseRaw s = none ∧ decodeFields s = emptyOutput := by
  have ht := tokenize_no_colon s hcolon
  have h2 : _parseRaw s = none := by
    unfold _parseRaw
    rw [if_neg (by simp [hping]), ht]
    rfl
  exact ⟨ht, h2, by unfold decodeFields; rw [h2]; rfl⟩

/-- C4, witness: a colon-free line triggers the amended claim. -/
theorem C4_no_colon_empty_witness :
    tokenize "hello world" = [] ∧ _parseRaw "hello world" = none ∧
    decodeFields "hello world" = emptyOutput :=
  C4_no_colon_empty _ (by decide) (by decide)

/-- C8: the tuple, dict, list and object views produced by `parse` carry
exactly the six fields of the decode result, and each view determines the
record (hence any view is derivable from any other without re-parsing). -/
theorem C8_views_equivalent (s : String) :
    parse s "tuple" = ParseResult.tuple (tupleOf (decodeFields s)) ∧
    parse s "dict" = ParseResult.dict (dictOf (decodeFields s)) ∧
    parse s "dictionary" = ParseResult.dict (dictOf (decodeFields s)) ∧
    parse s "list" = ParseResult.list (listOf (decodeFields s)) ∧
    parse s "object" = ParseResult.obj (getOutputObject (dictOf (decodeFields s))) ∧
    getOutputObject (dictOf (decodeFields s)) = decodeFields s ∧
    fieldsOfList (listOf (decodeFields s)) = some (decodeFields s) ∧
    fieldsOfTuple (tupleOf (decodeFields s)) = decodeFields s := by
  refine ⟨?_, ?_, ?_, ?_, ?_, getOutputObject_dictOf (decodeFields s), rfl, rfl⟩
  · rw [parse_eq_views]
    rfl
  · rw [parse_eq_views]
    rfl
  · rw [parse_eq_views]
    rfl
  · rw [parse_eq_views]
    rfl
  · rw [parse_eq_views]
    rfl

theorem lineAction_eq {t : List String} {isrv : Bool}
    {sua : PyVal × PyVal × Option String} {a : Option String}
    (hsrv : isServerMessage t = some isrv)
    (hsua : (if isrv then
          (getServer t).map (fun sv => (PyVal.str sv, PyVal.none, (none : Option String)))
        else
          (getNickname t).bind fun n =>
          (getUser t).bind fun u =>
          (getHostname t).bind fun h2 =>
          (getAction t).map fun a =>
          (PyVal.none, PyVal.triple (strippedNickname n) u h2, some a)) = some sua)
    (ha : lineAction t = some a) : a = sua.2.2 := by
  unfold lineAction at ha
  rw [hsrv] at ha
  simp only [Option.bind_eq_some, Option.some.injEq] at ha
  obtain ⟨x, hx, ha⟩ := ha
  subst hx
  cases isrv with
  | true =>
    rw [if_pos rfl] at ha hsua
    obtain ⟨sv, hsv, hs⟩ := Option.map_eq_some'.mp hsua
    rw [← hs]
    exact (Option.some.inj ha).symm
  | false =>
    rw [if_neg Bool.false_ne_true] at ha hsua
    simp only [Option.bind_eq_some, Option.map_eq_some'] at hsua ha
    obtain ⟨n, hn, u, hu, h2, hh2, a0, ha0, hs⟩ := hsua
    obtain ⟨a1, ha1, hA⟩ := ha
    rw [← hs]
    rw [ha0] at ha1
    rw [← hA]
    exact congrArg some (Option.some.inj ha1).symm

/-- C5, counterexample: on the PART line of the spec's own examples the
colon split yields two tokens, so the claimed policy demands the trailing
payload `goodbye` as `msg`, but the decoder's final `msg` is the channel
`#lobby`: the policy alone does not determine `msg` on every non-PING
input. -/
theorem C5_cex_part_line :
    pyStartsWith ":nick!u@h PART #lobby :goodbye" "PING" = false ∧
    (tokenize ":nick!u@h PART #lobby :goodbye").length > 1 ∧
    (decodeFields ":nick!u@h PART #lobby :goodbye").msg ≠
      PyVal.str (pyJoin ":" ((tokenize ":nick!u@h PART #lobby :goodbye").drop 1)) := by
  decide

/-- C5, amended: for every non-PING input on which the decoder does not
fall back to the all-absent result and whose action word is not `PART`
(whose override replaces `msg`), the final `msg` field is exactly the
first-match-wins payload policy of the specification, applied to the
token list, extracted code and action. -/
theorem C5_msg_policy (s : String) (p : ParseOutput) (a c : Option String)
    (hping : pyStartsWith s "PING" = false)
    (hp : _parseRaw s = some p)
    (ha : lineAction (tokenize s) = some a)
    (hpart : a ≠ some "PART")
    (hc : getIRCCode (tokenize s) = some c) :
    p.msg = optStr (msgPolicySpec (tokenize s) c a) := by
  unfold _parseRaw at hp
  rw [if_neg (by simp [hping])] at hp
  obtain ⟨isrv, sua, rcp, code, ch, m, ch1, hsrv, hsua, hrcp, hcode, hch, hm, hch1, hpp⟩ :=
    parseNoPing_some hp
  have haa : a = sua.2.2 := lineAction_eq hsrv hsua ha
  rw [hc] at hcode
  have hcc : c = code := Option.some.inj hcode
  subst hpp
  show optStr (if sua.2.2 = some "PART" then ch else m) = _
  rw [if_neg (by rw [← haa]; exact hpart)]
  rw [getMsg_policy hm, ← haa, ← hcc]

/-- C5, witness: a server numeric line with a trailing payload follows the
policy. -/
theorem C5_msg_policy_witness :
    (decodeFields ":irc.x 332 A #l :hello there").msg =
      optStr (msgPolicySpec (tokenize ":irc.x 332 A #l :hello there") (some "332") none) :=
  C5_msg_policy ":irc.x 332 A #l :hello there"
    (decodeFields ":irc.x 332 A #l :hello there") none (some "332")
    (by decide) (by decide) (by decide) (by decide) (by decide)

/-- C6: after the general extraction, a `PART` action overwrites `msg`
with the extracted channel, and a `JOIN` action overwrites `channel` with
the step-7 payload. -/
theorem C6_part_join_overrides (s : String) (p : ParseOutput) (a : Option String)
    (hping : pyStartsWith s "PING" = false)
    (hp : _parseRaw s = some p)
    (ha : lineAction (tokenize s) = some a) :
    (a = some "PART" → ∃ ch, getChannel (tokenize s) = some ch ∧ p.msg = optStr ch) ∧
    (a = some "JOIN" → ∃ c, getIRCCode (tokenize s) = some c ∧
      p.channel = optStr (msgPolicySpec (tokenize s) c a)) := by
  unfold _parseRaw at hp
  rw [if_neg (by simp [hping])] at hp
  obtain ⟨isrv, sua, rcp, code, ch, m, ch1, hsrv, hsua, hrcp, hcode, hch, hm, hch1, hpp⟩ :=
    parseNoPing_some hp
  have haa : a = sua.2.2 := lineAction_eq hsrv hsua ha
  subst hpp
  constructor
  · intro hA
    refine ⟨ch, hch, ?_⟩
    show optStr (if sua.2.2 = some "PART" then ch else m) = _
    rw [if_pos (haa ▸ hA)]
  · intro hA
    refine ⟨code, hcode, ?_⟩
    have hj : sua.2.2 = some "JOIN" := haa ▸ hA
    rw [if_pos hj] at hch1
    show optStr ch1 = _
    rw [getMsg_policy hch1, ← haa]

/-- C6, witness: the spec's PART example surfaces the channel as `msg`. -/
theorem C6_part_join_overrides_witness :
    (decodeFields ":nick!u@h PART #lobby :goodbye").msg = PyVal.str "#lobby" := by
  have h := C6_part_join_overrides ":nick!u@h PART #lobby :goodbye"
    (decodeFields ":nick!u@h PART #lobby :goodbye") (some "PART")
    (by decide) (by decide) (by decide)
  obtain ⟨ch, hch, hmsg⟩ := h.1 rfl
  have hk : getChannel (tokenize ":nick!u@h PART #lobby :goodbye") =
      some (some "#lobby") := by decide
  rw [hk] at hch
  have hc : ch = some "#lobby" := (Option.some.inj hch).symm
  rw [hmsg, hc]
  rfl

theorem tokenize_eq_afterColon (s : String) :
    tokenize s = (afterFirstColon s).elim []
      (fun r => splitAux (fun c => c == ':') r.toList []) := by
  unfold afterFirstColon
  by_cases h : s.toList.any (fun c => c == ':') = true
  · rw [if_pos h]
    rw [tokenize_colon s h]
    rfl
  · rw [if_neg h]
    exact tokenize_no_colon s (Bool.eq_false_iff.mpr h)

/-- C9: two non-PING lines with the same text after their first colon
decode identically; everything before the first colon is ignored. -/
theorem C9_prefix_irrelevant (s1 s2 : String)
    (h1 : pyStartsWith s1 "PING" = false)
    (h2 : pyStartsWith s2 "PING" = false)
    (hafter : afterFirstColon s1 = afterFirstColon s2) :
    decodeFields s1 = decodeFields s2 := by
  have ht : tokenize s1 = tokenize s2 := by
    rw [tokenize_eq_afterColon, tokenize_eq_afterColon, hafter]
  unfold decodeFields _parseRaw
  rw [if_neg (by simp [h1]), if_neg (by simp [h2]), ht]

/-- C9, witness: two lines differing only before the first colon decode
to the same result. -/
theorem C9_prefix_irrelevant_witness :
    decodeFields "abc:x 1" = decodeFields "zzzz:x 1" :=
  C9_prefix_irrelevant _ _ (by decide) (by decide) (by decide)

/-! ## Word-level evaluation lemmas -/

theorem mk_ne_empty {l : List Char} (h : l ≠ []) : String.mk l ≠ "" :=
  fun he => h (by simpa [String.ext_iff] using he)

theorem splitAux_get0 (p : Char → Bool) (l acc : List Char) :
    (splitAux p l acc).get? 0 =
      some (String.mk (acc.reverse ++ l.takeWhile (fun c => !p c))) := by
  have h := splitAux_head p l acc
  cases hs : splitAux p l acc with
  | nil => exact absurd hs (splitAux_ne_nil p l acc)
  | cons x xs =>
    rw [hs] at h
    simpa using h

theorem takeWhile_chain (p : Char → Bool) (l1 : List Char) (c : Char) (l2 : List Char)
    (h1 : ∀ x ∈ l1, p x = true) (hc : p c = true) :
    (l1 ++ c :: l2).takeWhile p = l1 ++ c :: l2.takeWhile p := by
  rw [takeWhile_append_all p l1 _ h1, List.takeWhile_cons, if_pos hc]

theorem takeWhile_stop (p : Char → Bool) (l1 : List Char) (c : Char) (l2 : List Char)
    (h1 : ∀ x ∈ l1, p x = true) (hc : p c = false) :
    (l1 ++ c :: l2).takeWhile p = l1 := by
  rw [takeWhile_append_all p l1 _ h1, List.takeWhile_cons, if_neg (by simp [hc])]
  simp

theorem pySplitWs_word0 (w junk : List Char) (hw : w ≠ [])
    (hws : ∀ c ∈ w, pyIsSpace c = false) :
    (pySplitWs (String.mk (w ++ ' ' :: junk))).get? 0 = some (String.mk w) := by
  unfold pySplitWs
  rw [show (String.mk (w ++ ' ' :: junk)).toList = w ++ ' ' :: junk from rfl]
  rw [splitAux_app pyIsSpace w junk [] ' ' hws (by decide)]
  rw [List.filter_cons, if_pos (by simp [mk_ne_empty hw])]
  exact List.get?_cons_zero

theorem pySplitChar_get1 (sep : Char) (l1 l2 : List Char)
    (h1 : ∀ x ∈ l1, (x == sep) = false) :
    (pySplitChar sep (String.mk (l1 ++ sep :: l2))).get? 1 =
      some (String.mk (l2.takeWhile (fun c => !(c == sep)))) := by
  unfold pySplitChar
  rw [show (String.mk (l1 ++ sep :: l2)).toList = l1 ++ sep :: l2 from rfl]
  rw [splitAux_app _ l1 l2 [] sep h1 (by simp)]
  rw [List.get?_cons_succ, splitAux_get0]
  simp

theorem pySplitChar_get1_any (sep : Char) (s : String)
    (h : s.toList.any (fun c => c == sep) = true) :
    (pySplitChar sep s).get? 1 =
      some (String.mk (((s.toList.dropWhile (fun c => !(c == sep))).drop 1).takeWhile
        (fun c => !(c == sep)))) := by
  unfold pySplitChar
  rw [splitAux_pos _ _ _ h, List.get?_cons_succ, splitAux_get0]
  simp

theorem pySplitChar_headD (sep : Char) (s : String) :
    (pySplitChar sep s).headD "" =
      String.mk (s.toList.takeWhile (fun c => !(c == sep))) := by
  rw [List.headD_eq_head?, pySplitChar, splitAux_head]
  rfl

theorem tokenize_cons_colon (s : String) (body : List Char) (h : s.toList = ':' :: body) :
    tokenize s = splitAux (fun c => c == ':') body [] := by
  rw [tokenize_colon s (by rw [h]; simp)]
  rw [h]
  simp [List.dropWhile_cons]

theorem not_ping_of_colon (s : String) (l : List Char) (h : s.toList = ':' :: l) :
    pyStartsWith s "PING" = false := by
  unfold pyStartsWith
  rw [h]
  rfl

/-- C10: a non-PING line whose first token's first whitespace word
contains `!` (so it is classified user-originated) but whose first token
has no `@` after its first `!` makes `getHostname` fail, so `parse`
returns the all-absent result in every output mode. -/
theorem C10_malformed_user_fallback (s : String) (t0 w : String)
    (hping : pyStartsWith s "PING" = false)
    (ht0 : (tokenize s).head? = some t0)
    (hw : (pySplitWs t0).get? 0 = some w)
    (hbang : pyContainsChar w '!' = true)
    (hat : ((t0.toList.dropWhile (fun c => !(c == '!'))).drop 1).any
      (fun c => c == '@') = false) :
    _parseRaw s = none ∧ decodeFields s = emptyOutput ∧
    ∀ output, parse s output = mkViews output emptyOutput := by
  have hsrv : isServerMessage (tokenize s) = some false := by
    unfold isServerMessage
    rw [ht0, Option.some_bind, hw]
    simp [hbang]
  have hbang0 : t0.toList.any (fun c => c == '!') = true := by
    have hwmem : w ∈ pySplitWs t0 := List.get?_mem hw
    have hwmem2 : w ∈ splitAux pyIsSpace t0.toList [] := (List.mem_filter.mp hwmem).1
    obtain ⟨c, hc, hcb⟩ := List.any_eq_true.mp hbang
    rcases splitAux_chars pyIsSpace t0.toList [] w hwmem2 c hc with h0 | h1
    · simp at h0
    · exact List.any_eq_true.mpr ⟨c, h1, hcb⟩
  have hget1 := pySplitChar_get1_any '!' t0 hbang0
  have hS1at : ∀ x ∈ ((t0.toList.dropWhile (fun c => !(c == '!'))).drop 1).takeWhile
      (fun c => !(c == '!')), (x == '@') = false := by
    intro x hx
    have hxR := (List.takeWhile_prefix _).subset hx
    have hall := List.any_eq_false.mp hat
    exact Bool.eq_false_iff.mpr (hall x hxR)
  have hsplit : pySplitChar '@' (String.mk (((t0.toList.dropWhile
        (fun c => !(c == '!'))).drop 1).takeWhile (fun c => !(c == '!')))) =
      [String.mk (((t0.toList.dropWhile (fun c => !(c == '!'))).drop 1).takeWhile
        (fun c => !(c == '!')))] := by
    unfold pySplitChar
    exact splitAux_no _ _ _ hS1at
  have hhost : getHostname (tokenize s) = none := by
    unfold getHostname
    rw [ht0, Option.some_bind, hget1, Option.some_bind, hsplit]
    rfl
  have hraw : _parseRaw s = none := by
    unfold _parseRaw
    rw [if_neg (by simp [hping])]
    unfold _parseNoPing
    rw [hsrv, Option.some_bind, if_neg Bool.false_ne_true]
    have hnick : getNickname (tokenize s) = some ((pySplitChar '!' t0).headD "") := by
      unfold getNickname
      rw [ht0]
      rfl
    have huser : getUser (tokenize s) = some ((pySplitChar '@' (String.mk
        (((t0.toList.dropWhile (fun c => !(c == '!'))).drop 1).takeWhile
          (fun c => !(c == '!'))))).headD "") := by
      unfold getUser
      rw [ht0, Option.some_bind, hget1]
      rfl
    rw [hnick, Option.some_bind, huser, Option.some_bind, hhost, Option.none_bind,
      Option.none_bind]
  refine ⟨hraw, by unfold decodeFields; rw [hraw]; rfl, fun output => ?_⟩
  rw [parse_eq_views, show decodeFields s = emptyOutput from by
    unfold decodeFields; rw [hraw]; rfl]

theorem getters_eval (t : List String) (T0 : String) (nickS uS hostS : String)
    (junk : List Char)
    (hT0 : t.head? = some T0)
    (hT0L : T0.toList = nickS.toList ++ '!' :: (uS.toList ++ '@' ::
      (hostS.toList ++ ' ' :: junk)))
    (hn1 : ∀ x ∈ nickS.toList, (x == '!') = false)
    (hu1 : ∀ x ∈ uS.toList, (x == '!') = false)
    (hu2 : ∀ x ∈ uS.toList, (x == '@') = false)
    (hh1 : ∀ x ∈ hostS.toList, (x == '!') = false)
    (hh2 : ∀ x ∈ hostS.toList, (x == '@') = false)
    (hh3 : ∀ x ∈ hostS.toList, pyIsSpace x = false)
    (hhne : hostS.toList ≠ []) :
    getNickname t = some nickS ∧ getUser t = some uS ∧ getHostname t = some hostS := by
  have hu1' : ∀ x ∈ uS.toList, (!(x == '!')) = true := fun x hx => by rw [hu1 x hx]; rfl
  have hh1' : ∀ x ∈ hostS.toList, (!(x == '!')) = true := fun x hx => by rw [hh1 x hx]; rfl
  have hu2' : ∀ x ∈ uS.toList, (!(x == '@')) = true := fun x hx => by rw [hu2 x hx]; rfl
  have hh2' : ∀ x ∈ hostS.toList, (!(x == '@')) = true := fun x hx => by rw [hh2 x hx]; rfl
  have hmkT0 : String.mk (nickS.toList ++ '!' :: (uS.toList ++ '@' ::
      (hostS.toList ++ ' ' :: junk))) = T0 := by
    rw [String.ext_iff]
    exact hT0L.symm
  have hsplit1 : (pySplitChar '!' T0).get? 1 =
      some (String.mk (uS.toList ++ '@' :: (hostS.toList ++ ' ' ::
        junk.takeWhile (fun c => !(c == '!'))))) := by
    have h := pySplitChar_get1 '!' nickS.toList
      (uS.toList ++ '@' :: (hostS.toList ++ ' ' :: junk)) hn1
    rw [hmkT0] at h
    rw [takeWhile_chain _ _ _ _ hu1' (by decide),
      takeWhile_chain _ _ _ _ hh1' (by decide)] at h
    exact h
  have hsplit2 : (pySplitChar '@' (String.mk (uS.toList ++ '@' :: (hostS.toList ++ ' ' ::
      junk.takeWhile (fun c => !(c == '!')))))).get? 1 =
      some (String.mk (hostS.toList ++ ' ' ::
        (junk.takeWhile (fun c => !(c == '!'))).takeWhile (fun c => !(c == '@')))) := by
    have h := pySplitChar_get1 '@' uS.toList
      (hostS.toList ++ ' ' :: junk.takeWhile (fun c => !(c == '!'))) hu2
    rw [takeWhile_chain _ _ _ _ hh2' (by decide)] at h
    exact h
  refine ⟨?_, ?_, ?_⟩
  · unfold getNickname
    rw [hT0, Option.map_some', pySplitChar_headD, hT0L,
      takeWhile_stop _ _ _ _ (fun x hx => by rw [hn1 x hx]; rfl) (by decide)]
    rfl
  · unfold getUser
    rw [hT0, Option.some_bind, hsplit1, Option.map_some', pySplitChar_headD]
    rw [show (String.mk (uS.toList ++ '@' :: (hostS.toList ++ ' ' ::
        junk.takeWhile (fun c => !(c == '!'))))).toList = uS.toList ++ '@' ::
        (hostS.toList ++ ' ' :: junk.takeWhile (fun c => !(c == '!'))) from rfl]
    rw [takeWhile_stop _ _ _ _ hu2' (by decide)]
    rfl
  · unfold getHostname
    rw [hT0, Option.some_bind, hsplit1, Option.some_bind, hsplit2, Option.some_bind]
    exact pySplitWs_word0 hostS.toList _ hhne hh3

theorem isServer_eval (t : List String) (T0 : String) (W junk : List Char)
    (hT0 : t.head? = some T0)
    (hT0L : T0.toList = W ++ ' ' :: junk)
    (hWne : W ≠ []) (hWws : ∀ x ∈ W, pyIsSpace x = false)
    (hWbang : '!' ∈ W) :
    isServerMessage t = some false := by
  unfold isServerMessage
  rw [hT0, Option.some_bind]
  have hw0 : (pySplitWs T0).get? 0 = some (String.mk W) := by
    have h := pySplitWs_word0 W junk hWne hWws
    rw [show String.mk (W ++ ' ' :: junk) = T0 from by
      rw [String.ext_iff]; exact hT0L.symm] at h
    exact h
  rw [hw0, Option.map_some']
  rw [show pyContainsChar (String.mk W) '!' = true from
    List.any_eq_true.mpr ⟨'!', hWbang, by decide⟩]
  rfl

/-- C7: for every line of the form `:nick!user@host COMMAND ...` whose
nick, user and host parts are nonempty and free of `:`, `!`, `@` and
whitespace, and which the decoder parses without falling back, the `user`
field is the triple of the sigil-stripped nick, the user and the host. -/
theorem C7_user_triple (nick u host rest : String) (p : ParseOutput)
    (hn : goodAtom nick) (hu : goodAtom u) (hh : goodAtom host)
    (hp : _parseRaw (":" ++ nick ++ "!" ++ u ++ "@" ++ host ++ " " ++ rest) = some p) :
    p.user = PyVal.triple (stripSigilSpec nick) u host := by
  have hlist : (":" ++ nick ++ "!" ++ u ++ "@" ++ host ++ " " ++ rest).toList
      = ':' :: (nick.toList ++ '!' :: (u.toList ++ '@' ::
        (host.toList ++ ' ' :: rest.toList))) := by
    simp [String.data_append]
  have hn1 : ∀ x ∈ nick.toList, (x == '!') = false :=
    fun x hx => beq_eq_false_iff_ne.mpr (hn.2 x hx).2.1
  have hu1 : ∀ x ∈ u.toList, (x == '!') = false :=
    fun x hx => beq_eq_false_iff_ne.mpr (hu.2 x hx).2.1
  have hu2 : ∀ x ∈ u.toList, (x == '@') = false :=
    fun x hx => beq_eq_false_iff_ne.mpr (hu.2 x hx).2.2.1
  have hh1 : ∀ x ∈ host.toList, (x == '!') = false :=
    fun x hx => beq_eq_false_iff_ne.mpr (hh.2 x hx).2.1
  have hh2 : ∀ x ∈ host.toList, (x == '@') = false :=
    fun x hx => beq_eq_false_iff_ne.mpr (hh.2 x hx).2.2.1
  have hh3 : ∀ x ∈ host.toList, pyIsSpace x = false := fun x hx => (hh.2 x hx).2.2.2
  have hhne : host.toList ≠ [] := fun he => hh.1 (String.ext_iff.mpr he)
  have hnc : ∀ x ∈ nick.toList, (!(x == ':')) = true :=
    fun x hx => by rw [beq_eq_false_iff_ne.mpr (hn.2 x hx).1]; rfl
  have huc : ∀ x ∈ u.toList, (!(x == ':')) = true :=
    fun x hx => by rw [beq_eq_false_iff_ne.mpr (hu.2 x hx).1]; rfl
  have hhc : ∀ x ∈ host.toList, (!(x == ':')) = true :=
    fun x hx => by rw [beq_eq_false_iff_ne.mpr (hh.2 x hx).1]; rfl
  have htw : (nick.toList ++ '!' :: (u.toList ++ '@' ::
      (host.toList ++ ' ' :: rest.toList))).takeWhile (fun c => !(c == ':'))
      = nick.toList ++ '!' :: (u.toList ++ '@' :: (host.toList ++ ' ' ::
          rest.toList.takeWhile (fun c => !(c == ':')))) := by
    rw [takeWhile_chain _ _ _ _ hnc (by decide), takeWhile_chain _ _ _ _ huc (by decide),
      takeWhile_chain _ _ _ _ hhc (by decide)]
  have ht0 : (tokenize (":" ++ nick ++ "!" ++ u ++ "@" ++ host ++ " " ++ rest)).head? =
      some (String.mk (nick.toList ++ '!' :: (u.toList ++ '@' :: (host.toList ++ ' ' ::
        rest.toList.takeWhile (fun c => !(c == ':')))))) := by
    rw [tokenize_cons_colon _ _ hlist, splitAux_head, htw]
    rfl
  obtain ⟨hgn, hgu, hgh⟩ := getters_eval _ _ nick u host
    (rest.toList.takeWhile (fun c => !(c == ':'))) ht0 rfl hn1 hu1 hu2 hh1 hh2 hh3 hhne
  have hT0L2 : (String.mk (nick.toList ++ '!' :: (u.toList ++ '@' :: (host.toList ++ ' ' ::
      rest.toList.takeWhile (fun c => !(c == ':')))))).toList
      = (nick.toList ++ '!' :: (u.toList ++ '@' :: host.toList)) ++ ' ' ::
        rest.toList.takeWhile (fun c => !(c == ':')) := by
    simp [List.cons_append, List.append_assoc]
  have hWne : (nick.toList ++ '!' :: (u.toList ++ '@' :: host.toList)) ≠ [] := by simp
  have hWws : ∀ x ∈ nick.toList ++ '!' :: (u.toList ++ '@' :: host.toList),
      pyIsSpace x = false := by
    intro x hx
    rcases List.mem_append.mp hx with h1 | h1
    · exact (hn.2 x h1).2.2.2
    · rcases List.mem_cons.mp h1 with rfl | h2
      · decide
      · rcases List.mem_append.mp h2 with h3 | h3
        · exact (hu.2 x h3).2.2.2
        · rcases List.mem_cons.mp h3 with rfl | h4
          · decide
          · exact (hh.2 x h4).2.2.2
  have hWbang : '!' ∈ nick.toList ++ '!' :: (u.toList ++ '@' :: host.toList) := by simp
  have hsrvC := isServer_eval _ _ _ _ ht0 hT0L2 hWne hWws hWbang
  unfold _parseRaw at hp
  rw [if_neg (by simp [not_ping_of_colon _ _ hlist])] at hp
  obtain ⟨isrv, sua, rcp, code, ch, m, ch1, hsrv, hsua, hrcp, hcode, hch, hm, hch1, hpp⟩ :=
    parseNoPing_some hp
  rw [hsrvC] at hsrv
  have hisrv : isrv = false := (Option.some.inj hsrv).symm
  subst hisrv
  rw [if_neg Bool.false_ne_true] at hsua
  simp only [Option.bind_eq_some, Option.map_eq_some'] at hsua
  obtain ⟨n0, hn0', u0, hu0', h0, hh0', a0, ha0', hs⟩ := hsua
  rw [hgn] at hn0'
  rw [hgu] at hu0'
  rw [hgh] at hh0'
  have e1 : n0 = nick := (Option.some.inj hn0').symm
  have e2 : u0 = u := (Option.some.inj hu0').symm
  have e3 : h0 = host := (Option.some.inj hh0').symm
  subst hpp
  show sua.2.1 = PyVal.triple (stripSigilSpec nick) u host
  rw [← hs]
  show PyVal.triple (strippedNickname n0) u0 h0 = PyVal.triple (stripSigilSpec nick) u host
  rw [e1, e2, e3, strippedNickname_eq_spec]

/-- C7, witness: the spec's NICK example decomposes into its user
triple. -/
theorem C7_user_triple_witness :
    (decodeFields (":" ++ "Tehnix" ++ "!" ++ "Tehnix" ++ "@" ++
        "ghost-EC31B3C1.rdns.scalabledns.com" ++ " " ++ "NICK :BlaBliBlu")).user =
      PyVal.triple (stripSigilSpec "Tehnix") "Tehnix"
        "ghost-EC31B3C1.rdns.scalabledns.com" :=
  C7_user_triple "Tehnix" "Tehnix" "ghost-EC31B3C1.rdns.scalabledns.com" "NICK :BlaBliBlu"
    _ (by decide) (by decide) (by decide) (by decide)

/-- C10, witness: a user prefix with no host part degrades to the total
fallback. -/
theorem C10_malformed_user_fallback_witness :
    _parseRaw ":nick!user NICK x" = none ∧
    decodeFields ":nick!user NICK x" = emptyOutput ∧
    parse ":nick!user NICK x" "dict" = mkViews "dict" emptyOutput := by
  have h := C10_malformed_user_fallback ":nick!user NICK x" "nick!user NICK x" "nick!user"
    (by decide) (by decide) (by decide) (by decide) (by decide)
  exact ⟨h.1, h.2.1, h.2.2 "dict"⟩
